import Mathlib

/-!
Verification of the gofastapi handler-compilation and per-request
binding/execution engine (dependency.go, handler.go, sse.go, errors file).

The Go code is shallowly embedded: request-type metadata becomes explicit
`FieldExtractor` / `CompiledDependency` / `CompiledHandler` data, reflection
values become the `GoVal` inductive, Go `error` values become the `GoErr`
inductive, and the per-request mutable `ResolvedDependencies` cache becomes
explicit state passing.  The recursive `DependencyResolver.Resolve` is given
a fuel parameter modelling the finite call stack (the source has no cycle
detection; a cyclic dependency graph exhausts the stack, which the model
renders as the `stackErr` error).  The modelled value/type fragment covers
the kinds the engine traffics in: strings, sized integers, booleans, slices,
plus struct-shaped and pointer-shaped dependency results; floating point and
Go's rune/byte string conversions are outside the fragment, and none of the
verified properties depend on them.
-/

/-- Semantic field types of the engine's coercion layer (reflect.Kind
fragment used by convertValue: String, Int*, Uint*, Bool, Slice). -/
inductive GoType where
  | string : GoType
  | int : Nat → GoType
  | uint : Nat → GoType
  | bool : GoType
  | slice : GoType → GoType
deriving DecidableEq, Repr

mutual
/-- Dynamic Go values as they flow through extractors and dependency
results.  `vint`/`vuint` carry their bit width (strconv produces 64-bit
values; reflect.Convert narrows).  `vstruct` models a struct-shaped
dependency result by its named fields in declaration order, `vptrNil` and
`vptrSome` a nil respectively non-nil pointer. -/
inductive GoVal where
  | vstr : String → GoVal
  | vint : Nat → Int → GoVal
  | vuint : Nat → Nat → GoVal
  | vbool : Bool → GoVal
  | vslice : GoType → GoValList → GoVal
  | vstruct : GoFieldList → GoVal
  | vptrNil : GoVal
  | vptrSome : GoVal → GoVal
deriving DecidableEq
/-- A list of dynamic values (slice contents). -/
inductive GoValList where
  | nil : GoValList
  | cons : GoVal → GoValList → GoValList
deriving DecidableEq
/-- Named struct fields of a struct-shaped value, in declaration order. -/
inductive GoFieldList where
  | fnil : GoFieldList
  | fcons : String → GoVal → GoFieldList → GoFieldList
deriving DecidableEq
end

/-- Go error values relevant to the engine: `apiError` is `*Error`
(status/code/message/details), `validationError` is `*ValidationError`
(status/code/message/field violations), `errorString` is a plain
`fmt.Errorf`/`strconv` error carrying only a message, and
`dependencyError` is the (declared but unused in Resolve) `*DependencyError`
wrapper. -/
inductive GoErr where
  | apiError : Nat → String → String → List (String × String) → GoErr
  | validationError : Nat → String → String → List (String × List String) → GoErr
  | errorString : String → GoErr
  | dependencyError : String → GoErr → GoErr
deriving DecidableEq, Repr

/-- Decidable equality for Except results, so that concrete runs of the
embedded engine can be checked by evaluation. -/
instance {ε α : Type} [DecidableEq ε] [DecidableEq α] : DecidableEq (Except ε α) :=
  fun a b =>
  match a, b with
  | Except.ok x, Except.ok y =>
    if h : x = y then Decidable.isTrue (by rw [h])
    else Decidable.isFalse (by intro hh; cases hh; exact h rfl)
  | Except.error x, Except.error y =>
    if h : x = y then Decidable.isTrue (by rw [h])
    else Decidable.isFalse (by intro hh; cases hh; exact h rfl)
  | Except.ok _, Except.error _ => Decidable.isFalse (by intro hh; exact Except.noConfusion hh)
  | Except.error _, Except.ok _ => Decidable.isFalse (by intro hh; exact Except.noConfusion hh)

/-- NewError from the errors file: a structured API error with status and
message, empty code and details. -/
def NewError (status : Nat) (message : String) : GoErr :=
  GoErr.apiError status "" message []

/-- NewValidationError from the errors file: status 400, code
VALIDATION_ERROR, message "Validation failed", with the per-field
violation lists. -/
def NewValidationError (fields : List (String × List String)) : GoErr :=
  GoErr.validationError 400 "VALIDATION_ERROR" "Validation failed" fields

/-- Association-list lookup keyed by strings, mirroring Go map indexing and
`reflect.FieldByName` (first match; keys are unique in the modelled maps). -/
def lookupStr {α : Type} (l : List (String × α)) (k : String) : Option α :=
  (l.find? (fun p => p.fst == k)).map Prod.snd

/-- Zero value of a field type, mirroring `reflect.Zero`. -/
def zeroVal : GoType → GoVal
  | GoType.string => GoVal.vstr ""
  | GoType.int b => GoVal.vint b 0
  | GoType.uint b => GoVal.vuint b 0
  | GoType.bool => GoVal.vbool false
  | GoType.slice t => GoVal.vslice t GoValList.nil

/-- Go ASCII whitespace predicate (the fragment of unicode.IsSpace that
matters for comma-separated parameter lists). -/
def isSpaceGo (c : Char) : Bool :=
  c == ' ' || c == '\t' || c == '\n' || c == '\x0d' || c == '\x0b' || c == '\x0c'

/-- strings.TrimSpace on the modelled whitespace fragment. -/
def trimGo (s : String) : String :=
  String.mk (((s.data.dropWhile isSpaceGo).reverse.dropWhile isSpaceGo).reverse)

/-- Accumulator loop of splitGo over the character list. -/
def splitGoAux : List Char → List Char → List String
  | [], acc => [String.mk acc.reverse]
  | c :: cs, acc =>
    if c == ',' then String.mk acc.reverse :: splitGoAux cs []
    else splitGoAux cs (c :: acc)

/-- strings.Split on the comma separator (Split of the empty string yields
one empty part). -/
def splitGo (s : String) : List String :=
  splitGoAux s.data []

/-- Go %q quoting as used in strconv error messages (no escaping needed for
the modelled inputs). -/
def quoteGo (s : String) : String :=
  "\"" ++ s ++ "\""

/-- Digits of a base-10 numeral; none if empty or any char is not a digit. -/
def digitsToNat : List Char → Option Nat
  | [] => none
  | [c] => if c.isDigit then some (c.toNat - '0'.toNat) else none
  | c :: cs =>
    if c.isDigit then
      match digitsToNat cs with
      | none => none
      | some n => some ((c.toNat - '0'.toNat) * 10 ^ cs.length + n)
    else none

/-- strconv.ParseBool: the exact set of accepted literals. -/
def parseBoolGo (s : String) : Except GoErr Bool :=
  if s == "1" || s == "t" || s == "T" || s == "true" || s == "TRUE" || s == "True" then
    Except.ok true
  else if s == "0" || s == "f" || s == "F" || s == "false" || s == "FALSE" || s == "False" then
    Except.ok false
  else
    Except.error (GoErr.errorString
      ("strconv.ParseBool: parsing " ++ quoteGo s ++ ": invalid syntax"))

/-- strconv.ParseInt in base 10 with a bit-size bound: optional sign, a
nonempty digit string, and a two's-complement range check. -/
def parseIntGo (s : String) (bits : Nat) : Except GoErr Int :=
  let syntaxErr : GoErr := GoErr.errorString
    ("strconv.ParseInt: parsing " ++ quoteGo s ++ ": invalid syntax")
  let rangeErr : GoErr := GoErr.errorString
    ("strconv.ParseInt: parsing " ++ quoteGo s ++ ": value out of range")
  let (neg, digits) :=
    match s.data with
    | '+' :: cs => (false, cs)
    | '-' :: cs => (true, cs)
    | cs => (false, cs)
  match digitsToNat digits with
  | none => Except.error syntaxErr
  | some n =>
    let v : Int := if neg then -(n : Int) else (n : Int)
    if v < -(2 ^ (bits - 1) : Int) || v > (2 ^ (bits - 1) : Int) - 1 then
      Except.error rangeErr
    else
      Except.ok v

/-- strconv.ParseUint in base 10 with a bit-size bound: no sign allowed. -/
def parseUintGo (s : String) (bits : Nat) : Except GoErr Nat :=
  let syntaxErr : GoErr := GoErr.errorString
    ("strconv.ParseUint: parsing " ++ quoteGo s ++ ": invalid syntax")
  let rangeErr : GoErr := GoErr.errorString
    ("strconv.ParseUint: parsing " ++ quoteGo s ++ ": value out of range")
  match digitsToNat s.data with
  | none => Except.error syntaxErr
  | some n => if n > 2 ^ bits - 1 then Except.error rangeErr else Except.ok n

/-- Element-wise conversion loop of convertValue's slice case: convert each
part, aborting at the first error (mirrors the Go for loop over parts). -/
def mapConvert (f : String → Except GoErr GoVal) : List String → Except GoErr GoValList
  | [] => Except.ok GoValList.nil
  | p :: ps =>
    match f p with
    | Except.error e => Except.error e
    | Except.ok v =>
      match mapConvert f ps with
      | Except.error e => Except.error e
      | Except.ok vs => Except.ok (GoValList.cons v vs)

/-- convertValue from handler.go: string-to-typed coercion.  Integer kinds
parse via strconv (yielding 64-bit dynamic values, range-checked against the
target width); booleans via ParseBool; slices split the comma-delimited
string, trim each part, and recursively coerce, any element failure aborting
the whole conversion. -/
def convertValue : GoType → String → Except GoErr GoVal
  | GoType.string, value => Except.ok (GoVal.vstr value)
  | GoType.int bits, value =>
    match parseIntGo value bits with
    | Except.error e => Except.error e
    | Except.ok n => Except.ok (GoVal.vint 64 n)
  | GoType.uint bits, value =>
    match parseUintGo value bits with
    | Except.error e => Except.error e
    | Except.ok n => Except.ok (GoVal.vuint 64 n)
  | GoType.bool, value =>
    match parseBoolGo value with
    | Except.error e => Except.error e
    | Except.ok b => Except.ok (GoVal.vbool b)
  | GoType.slice t, value =>
    match mapConvert (fun p => convertValue t (trimGo p)) (splitGo value) with
    | Except.error e => Except.error e
    | Except.ok vs => Except.ok (GoVal.vslice t vs)
termination_by structural t _ => t

/-- Numeric kinds of the modelled fragment. -/
def isNumericType : GoType → Bool
  | GoType.int _ => true
  | GoType.uint _ => true
  | _ => false

/-- reflect ConvertibleTo between a dynamic value and a declared field type,
restricted to the modelled fragment: numeric values convert to any numeric
kind, every other kind only to itself; struct- and pointer-shaped values
have no counterpart among the modelled declared kinds and are never
convertible (Go's rune/byte string conversions are outside the fragment). -/
def valConvertible : GoVal → GoType → Bool
  | GoVal.vint _ _, t => isNumericType t
  | GoVal.vuint _ _, t => isNumericType t
  | GoVal.vbool _, t => t == GoType.bool
  | GoVal.vstr _, t => t == GoType.string
  | GoVal.vslice te _, t => t == GoType.slice te
  | GoVal.vstruct _, _ => false
  | GoVal.vptrNil, _ => false
  | GoVal.vptrSome _, _ => false

/-- Two's-complement wrap of an integer to a bit width (reflect.Convert on
signed integer kinds). -/
def wrapSigned (n : Int) (bits : Nat) : Int :=
  let m : Int := 2 ^ bits
  let r := n % m
  if r ≥ 2 ^ (bits - 1) then r - m else r

/-- reflect Convert of a dynamic value to a declared type, for convertible
pairs: numeric conversions wrap to the target width, everything else is the
identity. -/
def convertVal : GoVal → GoType → GoVal
  | GoVal.vint _ n, GoType.int b => GoVal.vint b (wrapSigned n b)
  | GoVal.vint _ n, GoType.uint b => GoVal.vuint b ((n % (2 ^ b : Int)).toNat)
  | GoVal.vuint _ n, GoType.int b => GoVal.vint b (wrapSigned (n : Int) b)
  | GoVal.vuint _ n, GoType.uint b => GoVal.vuint b (n % 2 ^ b)
  | v, _ => v

example : convertValue (GoType.slice GoType.string) "a, b,c" =
    Except.ok (GoVal.vslice GoType.string
      (GoValList.cons (GoVal.vstr "a") (GoValList.cons (GoVal.vstr "b")
        (GoValList.cons (GoVal.vstr "c") GoValList.nil)))) := by decide

example : convertValue (GoType.int 64) "17" = Except.ok (GoVal.vint 64 17) := by decide

example : parseBoolGo "" = Except.error (GoErr.errorString
    "strconv.ParseBool: parsing \"\": invalid syntax") := by decide

/-- Request-scoped inputs supplied by the routing/transport layer: the
path-variable map captured by the router, the query parameters, and the
headers.  `Get` on absent query/header keys yields the empty string, as in
net/http. -/
structure ReqCtx where
  pathVars : List (String × String)
  query : List (String × String)
  headers : List (String × String)
deriving DecidableEq

/-- Query().Get: first value for the key, or the empty string. -/
def getQuery (ctx : ReqCtx) (name : String) : String :=
  (lookupStr ctx.query name).getD ""

/-- Header.Get: the header value for the key, or the empty string. -/
def getHeader (ctx : ReqCtx) (name : String) : String :=
  (lookupStr ctx.headers name).getD ""

/-- The four modelled extractor strategies of handler.go, each carrying the
declared field type (the JSON-body extractor is outside the modelled
fragment; no claim touches it).  The dependency extractor carries the full
dot-path whose head is the dependency name, exactly as compiled from the
`dep` tag by compileStructExtractors. -/
inductive FieldExtractor where
  | path : String → GoType → FieldExtractor
  | query : String → GoType → FieldExtractor
  | header : String → GoType → FieldExtractor
  | dep : String → List String → GoType → FieldExtractor
deriving DecidableEq

/-- Declared field type carried by an extractor. -/
def FieldExtractor.fieldType : FieldExtractor → GoType
  | FieldExtractor.path _ t => t
  | FieldExtractor.query _ t => t
  | FieldExtractor.header _ t => t
  | FieldExtractor.dep _ _ t => t

/-- Whether the extractor is a dependency reference. -/
def FieldExtractor.isDep : FieldExtractor → Bool
  | FieldExtractor.dep _ _ _ => true
  | _ => false

/-- Extract from handler.go: PathExtractor fails with a fixed error when the
variable is absent; QueryExtractor yields the zero value for an absent value
unless the field kind is Bool; HeaderExtractor yields the zero value for any
absent value; DependencyExtractor never extracts (the binder intercepts it).
The `Option GoVal` result models the `interface{}` being nil or not. -/
def extractE : FieldExtractor → ReqCtx → Except GoErr (Option GoVal)
  | FieldExtractor.path p t, ctx =>
    match lookupStr ctx.pathVars p with
    | none => Except.error (GoErr.errorString ("path parameter " ++ p ++ " not found"))
    | some v =>
      match convertValue t v with
      | Except.error e => Except.error e
      | Except.ok w => Except.ok (some w)
  | FieldExtractor.query p t, ctx =>
    let v := getQuery ctx p
    if v == "" && !(t == GoType.bool) then Except.ok (some (zeroVal t))
    else
      match convertValue t v with
      | Except.error e => Except.error e
      | Except.ok w => Except.ok (some w)
  | FieldExtractor.header h t, ctx =>
    let v := getHeader ctx h
    if v == "" then Except.ok (some (zeroVal t))
    else
      match convertValue t v with
      | Except.error e => Except.error e
      | Except.ok w => Except.ok (some w)
  | FieldExtractor.dep _ _ _, _ => Except.ok none

/-- Pointer dereference loop at the top of each step of extractNestedField:
follow non-nil pointers, stopping with none at a nil pointer. -/
def derefPtr : GoVal → Option GoVal
  | GoVal.vptrNil => none
  | GoVal.vptrSome v => derefPtr v
  | v => some v

/-- reflect.Value.FieldByName: case-sensitive lookup in declaration order
(struct field names are unique). -/
def fieldByName : GoFieldList → String → Option GoVal
  | GoFieldList.fnil, _ => none
  | GoFieldList.fcons n v rest, name =>
    if n == name then some v else fieldByName rest name

/-- ASCII lower-casing of one character. -/
def lowerChar (c : Char) : Char :=
  if 'A' ≤ c && c ≤ 'Z' then Char.ofNat (c.toNat + 32) else c

/-- strings.EqualFold restricted to ASCII case folding (struct field names
are ASCII identifiers). -/
def eqFold (a b : String) : Bool :=
  a.data.map lowerChar == b.data.map lowerChar

/-- The case-insensitive fallback scan of extractNestedField, using
strings.EqualFold, first match in declaration order. -/
def fieldByFold : GoFieldList → String → Option GoVal
  | GoFieldList.fnil, _ => none
  | GoFieldList.fcons n v rest, name =>
    if eqFold n name then some v else fieldByFold rest name

/-- extractNestedField from dependency.go: walk the dot-path through the
value, dereferencing pointers (nil pointer stops with an absent result),
requiring a struct at each step, matching each segment case-sensitively
first and case-insensitively as a fallback, and stopping with an absent
result when a segment is missing or the value is not navigable. -/
def extractNestedField : GoVal → List String → Option GoVal
  | v, [] => some v
  | v, f :: rest =>
    match derefPtr v with
    | none => none
    | some w =>
      match w with
      | GoVal.vstruct fields =>
        match (match fieldByName fields f with
               | some fv => some fv
               | none => fieldByFold fields f) with
        | none => none
        | some fv => extractNestedField fv rest
      | _ => none

/-- Field assignment in DependencyResolver.Resolve: a nil value is skipped;
a non-nil value is converted and stored only when its dynamic type is
convertible to the field type, and silently dropped otherwise. -/
def setFieldDep (fields : List GoVal) (idx : Nat) (value : Option GoVal)
    (t : GoType) : List GoVal :=
  match value with
  | none => fields
  | some v => if valConvertible v t then fields.set idx (convertVal v t) else fields

/-- Field assignment in CompiledHandler.Execute: as setFieldDep, except that
a non-convertible non-nil value is stored raw (the Go code calls
reflect.Set directly in that branch). -/
def setFieldExec (fields : List GoVal) (idx : Nat) (value : Option GoVal)
    (t : GoType) : List GoVal :=
  match value with
  | none => fields
  | some v =>
    if valConvertible v t then fields.set idx (convertVal v t) else fields.set idx v

/-- A compiled dependency (compiledDependency in dependency.go): the field
extractors of its request type keyed by field index, the request field
types, the Validation Port applied to the populated request value
(validateStruct with the dependency's rule table), and the Handle method.
Validator and handler are modelled as opaque functions on the field-indexed
request value. -/
structure CompiledDependency where
  extractors : List (Nat × FieldExtractor)
  reqFieldTypes : List GoType
  validate : List GoVal → Option GoErr
  handlerFunc : List GoVal → Except GoErr GoVal

/-- A compiled route handler (CompiledHandler in handler.go); same shape,
with the business function producing the response value. -/
structure CompiledHandler where
  extractors : List (Nat × FieldExtractor)
  reqFieldTypes : List GoType
  validate : List GoVal → Option GoErr
  handlerFunc : List GoVal → Except GoErr GoVal

/-- The per-request ResolvedDependencies cache.  `values` is the
name-to-result map; `log` is pure instrumentation recording each dependency
handler invocation in order (the call-counting stub of the spec's test
scenario) — it is appended to exactly when a handler is invoked and is
never read by the engine. -/
structure ResolvedDependencies where
  values : List (String × GoVal)
  log : List String
deriving DecidableEq

/-- The error the model reports when the dependency recursion exhausts its
fuel; it stands for the stack exhaustion the unbounded Go recursion would
hit on a cyclic dependency graph (a documented limitation of the source). -/
def stackErr : GoErr := GoErr.errorString "dependency resolution stack exhausted"

/-- Zero-initialized request value for a list of field types. -/
def zeroFields (ts : List GoType) : List GoVal := ts.map zeroVal

/-- The shared field-population loop of CompiledHandler.Execute,
DependencyResolver.Resolve and the SSE prepareRequest: walk the field
slots in order; a dependency slot resolves its dependency (through
`resolveF`) and, when a dot-path is present, navigates into the result; any
other slot extracts directly; any resolver or extractor error aborts
immediately; the produced value is assigned through `setf` (setFieldDep or
setFieldExec, the two assignment semantics in the source). -/
def fieldLoop (setf : List GoVal → Nat → Option GoVal → GoType → List GoVal)
    (ctx : ReqCtx)
    (resolveF : String → ResolvedDependencies →
      ResolvedDependencies × Except GoErr GoVal) :
    List (Nat × FieldExtractor) → List GoVal → ResolvedDependencies →
      ResolvedDependencies × Except GoErr (List GoVal)
  | [], fields, s => (s, Except.ok fields)
  | (idx, ext) :: rest, fields, s =>
    match ext with
    | FieldExtractor.dep depName fieldPath t =>
      match resolveF depName s with
      | (s1, Except.error e) => (s1, Except.error e)
      | (s1, Except.ok depResult) =>
        let value : Option GoVal :=
          if fieldPath.length > 1 then extractNestedField depResult (fieldPath.drop 1)
          else some depResult
        fieldLoop setf ctx resolveF rest (setf fields idx value t) s1
    | other =>
      match extractE other ctx with
      | Except.error e => (s, Except.error e)
      | Except.ok value =>
        fieldLoop setf ctx resolveF rest (setf fields idx value other.fieldType) s

/-- DependencyResolver.Resolve: return the cached value if the name was
already resolved (without re-execution); fail with the fixed not-found
error for an unregistered name; otherwise populate a fresh request value
for the dependency (recursively resolving nested dependencies), validate
it — a validation failure is returned as-is — invoke the Handle method — a
handler error is returned as-is — and cache the result under the name
before returning it.  The fuel parameter bounds the recursion depth
(modelling the finite stack; the source has no cycle detection). -/
def resolve (reg : List (String × CompiledDependency)) (ctx : ReqCtx) :
    Nat → String → ResolvedDependencies →
      ResolvedDependencies × Except GoErr GoVal
  | 0, _, s => (s, Except.error stackErr)
  | fuel + 1, name, s =>
    match lookupStr s.values name with
    | some v => (s, Except.ok v)
    | none =>
      match lookupStr reg name with
      | none =>
        (s, Except.error (GoErr.errorString ("dependency " ++ name ++ " not found")))
      | some dep =>
        match fieldLoop setFieldDep ctx (fun n st => resolve reg ctx fuel n st)
            dep.extractors (zeroFields dep.reqFieldTypes) s with
        | (s1, Except.error e) => (s1, Except.error e)
        | (s1, Except.ok fields) =>
          match dep.validate fields with
          | some e => (s1, Except.error e)
          | none =>
            match dep.handlerFunc fields with
            | Except.error e =>
              ({ values := s1.values, log := s1.log ++ [name] }, Except.error e)
            | Except.ok result =>
              ({ values := (name, result) :: s1.values, log := s1.log ++ [name] },
                Except.ok result)
termination_by structural fuel _ _ => fuel

/-- CompiledHandler.Execute (after body reading, which the fragment does not
model): create a fresh request value and a fresh empty ResolvedDependencies
cache, populate all fields through the binding loop, validate, invoke the
business function, and return its response; any error along the way is
handed to the error handler unmodified, modelled by returning it.  The
final ResolvedDependencies state is returned alongside for the
instrumentation. -/
def executeRequest (reg : List (String × CompiledDependency)) (ctx : ReqCtx)
    (plan : CompiledHandler) (fuel : Nat) :
    ResolvedDependencies × Except GoErr GoVal :=
  let s0 : ResolvedDependencies := { values := [], log := [] }
  match fieldLoop setFieldExec ctx (fun n st => resolve reg ctx fuel n st)
      plan.extractors (zeroFields plan.reqFieldTypes) s0 with
  | (s1, Except.error e) => (s1, Except.error e)
  | (s1, Except.ok fields) =>
    match plan.validate fields with
    | some e => (s1, Except.error e)
    | none =>
      match plan.handlerFunc fields with
      | Except.error e => (s1, Except.error e)
      | Except.ok resp => (s1, Except.ok resp)

/-- The wire-level error response produced by defaultErrorHandler. -/
structure ErrorResponse where
  status : Nat
  code : String
  message : String
  details : List (String × String)
  fields : List (String × List String)
deriving DecidableEq

/-- defaultErrorHandler from the errors file: a `*Error` keeps its status,
code, message and details; a `*ValidationError` keeps its status, code,
message and field violations; anything else becomes a generic 500
INTERNAL_ERROR response. -/
def defaultErrorHandler : GoErr → ErrorResponse
  | GoErr.apiError status code message details =>
    { status := status, code := code, message := message,
      details := details, fields := [] }
  | GoErr.validationError status code message fields =>
    { status := status, code := code, message := message,
      details := [], fields := fields }
  | _ =>
    { status := 500, code := "INTERNAL_ERROR",
      message := "An internal error occurred", details := [], fields := [] }

/-- The SSE event-writing loop of SSECompiledHandler.streamEvents: the
producer's pending events are the list; `cancelled k` tells whether the
request context is done once k events have been flushed; `writeOk e` tells
whether writing event e succeeds.  Each yield checks cancellation first
(returning false to the producer, which stops), then writes and flushes;
a failed write also stops the loop; the producer stopping naturally ends
the stream.  The result is the list of events actually written. -/
def streamEvents {α : Type} (cancelled : Nat → Bool) (writeOk : α → Bool) :
    List α → Nat → List α
  | [], _ => []
  | e :: rest, k =>
    if cancelled k then []
    else if writeOk e then e :: streamEvents cancelled writeOk rest (k + 1)
    else []

/-! Concrete fixtures used by several claim statements and witnesses. -/

/-- The empty request context (no path variables, query or headers). -/
def emptyCtx : ReqCtx := { pathVars := [], query := [], headers := [] }

/-- The fresh per-request cache state. -/
def emptyResolved : ResolvedDependencies := { values := [], log := [] }

/-- The auth dependency result of the spec's nested-field scenario:
`{UserID: "u1", Username: "john"}`. -/
def authResultVal : GoVal :=
  GoVal.vstruct (GoFieldList.fcons "UserID" (GoVal.vstr "u1")
    (GoFieldList.fcons "Username" (GoVal.vstr "john") GoFieldList.fnil))

/-- Claim C3: in the SSE streaming loop, cancellation is checked before
emitting each event and wins over writing one more event: a producer with
three pending events under a context cancelled after the second flush
writes exactly the first two events and never attempts a third; the loop
also ends when the producer ends naturally and when a write fails. -/
theorem sse_cancellation_priority :
    (∀ (α : Type) (cancelled : Nat → Bool) (writeOk : α → Bool) (e1 e2 e3 : α),
      cancelled 0 = false → cancelled 1 = false → cancelled 2 = true →
      writeOk e1 = true → writeOk e2 = true →
      streamEvents cancelled writeOk [e1, e2, e3] 0 = [e1, e2]) ∧
    (∀ (α : Type) (c : Nat → Bool) (w : α → Bool) (k : Nat),
      streamEvents c w ([] : List α) k = []) ∧
    (∀ (α : Type) (c : Nat → Bool) (w : α → Bool) (e : α) (rest : List α) (k : Nat),
      c k = true → streamEvents c w (e :: rest) k = []) ∧
    (∀ (α : Type) (c : Nat → Bool) (w : α → Bool) (e : α) (rest : List α) (k : Nat),
      c k = false → w e = false → streamEvents c w (e :: rest) k = []) := by
  refine ⟨?_, ?_, ?_, ?_⟩
  · intro α cancelled writeOk e1 e2 e3 h0 h1 h2 w1 w2
    simp [streamEvents, h0, h1, h2, w1, w2]
  · intro α c w k
    simp [streamEvents]
  · intro α c w e rest k hk
    simp [streamEvents, hk]
  · intro α c w e rest k hk hw
    simp [streamEvents, hk, hw]

/-- Witness for C3: the three-event producer with cancellation after the
second flush, all writes succeeding, yields exactly the first two events. -/
theorem sse_cancellation_priority_witness :
    streamEvents (fun k => decide (2 ≤ k)) (fun _ : Nat => true) [10, 20, 30] 0 = [10, 20] :=
  sse_cancellation_priority.1 Nat (fun k => decide (2 ≤ k)) (fun _ => true) 10 20 30
    (by decide) (by decide) (by decide) (by decide) (by decide)

/-- Claim C5 counterexample: a boolean-typed query field with an absent
(empty) value is not interpreted as false without parsing — QueryExtractor
excludes Bool from the zero-value shortcut, so the empty string reaches
strconv.ParseBool, which fails.  This refutes "an absent value yields the
field's zero value and no error ... for a boolean-typed query field". -/
theorem query_bool_empty_counterexample :
    extractE (FieldExtractor.query "flag" GoType.bool) emptyCtx =
      Except.error (GoErr.errorString
        "strconv.ParseBool: parsing \"\": invalid syntax") := by decide

/-- Claim C5 (amended): an absent query value yields the zero value with no
error for non-boolean fields; an absent header value yields the zero value
with no error for every field type (including booleans, whose empty string
becomes false without parsing); but a boolean-typed query field with an
absent/empty value is handed to boolean parsing and fails. -/
theorem absent_query_header_zero_amended :
    (∀ (ctx : ReqCtx) (p : String) (t : GoType), getQuery ctx p = "" →
      t ≠ GoType.bool →
      extractE (FieldExtractor.query p t) ctx = Except.ok (some (zeroVal t))) ∧
    (∀ (ctx : ReqCtx) (h : String) (t : GoType), getHeader ctx h = "" →
      extractE (FieldExtractor.header h t) ctx = Except.ok (some (zeroVal t))) ∧
    (∀ (ctx : ReqCtx) (p : String), getQuery ctx p = "" →
      extractE (FieldExtractor.query p GoType.bool) ctx =
        Except.error (GoErr.errorString
          "strconv.ParseBool: parsing \"\": invalid syntax")) := by
  refine ⟨?_, ?_, ?_⟩
  · intro ctx p t hq ht
    simp [extractE, hq, beq_eq_false_iff_ne.mpr ht]
  · intro ctx h t hh
    simp [extractE, hh]
  · intro ctx p hq
    simp [extractE, hq, convertValue, parseBoolGo, quoteGo]

/-- Witness for the amended C5: a context with no query parameters or
headers exercises all three conjuncts at concrete fields. -/
theorem absent_query_header_zero_amended_witness :
    extractE (FieldExtractor.query "n" (GoType.int 64)) emptyCtx =
      Except.ok (some (zeroVal (GoType.int 64))) ∧
    extractE (FieldExtractor.header "X-Flag" GoType.bool) emptyCtx =
      Except.ok (some (zeroVal GoType.bool)) ∧
    extractE (FieldExtractor.query "flag2" GoType.bool) emptyCtx =
      Except.error (GoErr.errorString
        "strconv.ParseBool: parsing \"\": invalid syntax") :=
  ⟨absent_query_header_zero_amended.1 emptyCtx "n" (GoType.int 64) (by decide) (by decide),
   absent_query_header_zero_amended.2.1 emptyCtx "X-Flag" GoType.bool (by decide),
   absent_query_header_zero_amended.2.2 emptyCtx "flag2" (by decide)⟩

/-- Claim C7: absence of a declared path variable always fails the binding
with the fixed not-found error (never a zero value), while an absent query
or header value on a non-boolean field always yields the field's zero value
and no error. -/
theorem path_absence_fails_query_header_absence_zero :
    (∀ (ctx : ReqCtx) (p : String) (t : GoType), lookupStr ctx.pathVars p = none →
      extractE (FieldExtractor.path p t) ctx =
        Except.error (GoErr.errorString ("path parameter " ++ p ++ " not found"))) ∧
    (∀ (ctx : ReqCtx) (p : String) (t : GoType), getQuery ctx p = "" →
      t ≠ GoType.bool →
      extractE (FieldExtractor.query p t) ctx = Except.ok (some (zeroVal t))) ∧
    (∀ (ctx : ReqCtx) (h : String) (t : GoType), getHeader ctx h = "" →
      t ≠ GoType.bool →
      extractE (FieldExtractor.header h t) ctx = Except.ok (some (zeroVal t))) := by
  refine ⟨?_, ?_, ?_⟩
  · intro ctx p t hp
    simp [extractE, hp]
  · intro ctx p t hq ht
    simp [extractE, hq, beq_eq_false_iff_ne.mpr ht]
  · intro ctx h t hh _
    simp [extractE, hh]

/-- Witness for C7 at concrete fields over the empty context. -/
theorem path_absence_fails_query_header_absence_zero_witness :
    extractE (FieldExtractor.path "user_id" GoType.string) emptyCtx =
      Except.error (GoErr.errorString "path parameter user_id not found") ∧
    extractE (FieldExtractor.query "limit" (GoType.uint 64)) emptyCtx =
      Except.ok (some (zeroVal (GoType.uint 64))) ∧
    extractE (FieldExtractor.header "X-Trace" GoType.string) emptyCtx =
      Except.ok (some (zeroVal GoType.string)) :=
  ⟨path_absence_fails_query_header_absence_zero.1 emptyCtx "user_id" GoType.string (by decide),
   path_absence_fails_query_header_absence_zero.2.1 emptyCtx "limit" (GoType.uint 64)
     (by decide) (by decide),
   path_absence_fails_query_header_absence_zero.2.2 emptyCtx "X-Trace" GoType.string
     (by decide) (by decide)⟩

/-- An element conversion error anywhere in the list aborts the whole
element-conversion loop with an error. -/
theorem mapConvert_error_of_mem (f : String → Except GoErr GoVal) :
    ∀ (l : List String) (p : String) (e : GoErr), p ∈ l → f p = Except.error e →
      ∃ e2, mapConvert f l = Except.error e2 := by
  intro l
  induction l with
  | nil => intro p e hp _; simp at hp
  | cons q qs ih =>
    intro p e hp hf
    rcases List.mem_cons.mp hp with h | h
    · subst h
      exact ⟨e, by simp [mapConvert, hf]⟩
    · cases hq : f q with
      | error e1 => exact ⟨e1, by simp [mapConvert, hq]⟩
      | ok v =>
        rcases ih p e h hf with ⟨e2, h2⟩
        exact ⟨e2, by simp [mapConvert, hq, h2]⟩

/-- Claim C8: a sequence-typed field bound from a string splits the string
on commas, trims each element and recursively coerces it to the element
type; a coercion failure of any element aborts the whole field with an
error; and the input "a, b,c" coerces to the three-element string sequence
[a, b, c]. -/
theorem sequence_split_trim_coerce :
    (convertValue (GoType.slice GoType.string) "a, b,c" =
      Except.ok (GoVal.vslice GoType.string
        (GoValList.cons (GoVal.vstr "a") (GoValList.cons (GoVal.vstr "b")
          (GoValList.cons (GoVal.vstr "c") GoValList.nil))))) ∧
    (∀ (t : GoType) (value : String),
      convertValue (GoType.slice t) value =
        Except.map (GoVal.vslice t)
          (mapConvert (fun p => convertValue t (trimGo p)) (splitGo value))) ∧
    (∀ (t : GoType) (value p : String) (e : GoErr), p ∈ splitGo value →
      convertValue t (trimGo p) = Except.error e →
      ∃ e2, convertValue (GoType.slice t) value = Except.error e2) := by
  refine ⟨by decide, ?_, ?_⟩
  · intro t value
    cases h : mapConvert (fun p => convertValue t (trimGo p)) (splitGo value) with
    | error e => simp [convertValue, h, Except.map]
    | ok vs => simp [convertValue, h, Except.map]
  · intro t value p e hp hf
    rcases mapConvert_error_of_mem (fun q => convertValue t (trimGo q))
      (splitGo value) p e hp hf with ⟨e2, h2⟩
    exact ⟨e2, by simp [convertValue, h2]⟩

/-- Witness for C8: the element "x" of "1,x" fails integer coercion and
aborts the whole sequence conversion. -/
theorem sequence_split_trim_coerce_witness :
    ∃ e2, convertValue (GoType.slice (GoType.int 64)) "1,x" = Except.error e2 :=
  sequence_split_trim_coerce.2.2 (GoType.int 64) "1,x" "x"
    (GoErr.errorString "strconv.ParseInt: parsing \"x\": invalid syntax")
    (by decide) (by decide)

/-- Claim C9: dot-path navigation into a resolved dependency result matches
each segment against struct field names case-sensitively first and
case-insensitively as a fallback, yields an absent value (not an error)
when a segment is missing, when the value is not a navigable struct, or
when a nil pointer is hit; and on the auth example, auth.UserID yields
"u1" while auth.Missing yields nil. -/
theorem nested_dot_path_navigation :
    (∀ (fields : GoFieldList) (f : String) (rest : List String) (v : GoVal),
      fieldByName fields f = some v →
      extractNestedField (GoVal.vstruct fields) (f :: rest) = extractNestedField v rest) ∧
    (∀ (fields : GoFieldList) (f : String) (rest : List String) (v : GoVal),
      fieldByName fields f = none → fieldByFold fields f = some v →
      extractNestedField (GoVal.vstruct fields) (f :: rest) = extractNestedField v rest) ∧
    (∀ (fields : GoFieldList) (f : String) (rest : List String),
      fieldByName fields f = none → fieldByFold fields f = none →
      extractNestedField (GoVal.vstruct fields) (f :: rest) = none) ∧
    (∀ (s : String) (f : String) (rest : List String),
      extractNestedField (GoVal.vstr s) (f :: rest) = none) ∧
    (∀ (f : String) (rest : List String),
      extractNestedField GoVal.vptrNil (f :: rest) = none) ∧
    (extractNestedField authResultVal ["UserID"] = some (GoVal.vstr "u1")) ∧
    (extractNestedField authResultVal ["Missing"] = none) := by
  refine ⟨?_, ?_, ?_, ?_, ?_, by decide, by decide⟩
  · intro fields f rest v h
    simp [extractNestedField, derefPtr, h]
  · intro fields f rest v hn hf
    simp [extractNestedField, derefPtr, hn, hf]
  · intro fields f rest hn hf
    simp [extractNestedField, derefPtr, hn, hf]
  · intro s f rest
    simp [extractNestedField, derefPtr]
  · intro f rest
    simp [extractNestedField, derefPtr]

/-- Witness for C9: on the auth result, the exact-case field, the
case-insensitive fallback, and a missing segment behave as stated. -/
theorem nested_dot_path_navigation_witness :
    extractNestedField authResultVal ["UserID"] = extractNestedField (GoVal.vstr "u1") [] ∧
    extractNestedField authResultVal ["username"] = extractNestedField (GoVal.vstr "john") [] ∧
    extractNestedField authResultVal ["Missing"] = none :=
  ⟨nested_dot_path_navigation.1
      (GoFieldList.fcons "UserID" (GoVal.vstr "u1")
        (GoFieldList.fcons "Username" (GoVal.vstr "john") GoFieldList.fnil))
      "UserID" [] (GoVal.vstr "u1") (by decide),
   nested_dot_path_navigation.2.1
      (GoFieldList.fcons "UserID" (GoVal.vstr "u1")
        (GoFieldList.fcons "Username" (GoVal.vstr "john") GoFieldList.fnil))
      "username" [] (GoVal.vstr "john") (by decide) (by decide),
   nested_dot_path_navigation.2.2.1
      (GoFieldList.fcons "UserID" (GoVal.vstr "u1")
        (GoFieldList.fcons "Username" (GoVal.vstr "john") GoFieldList.fnil))
      "Missing" [] (by decide) (by decide)⟩

/-- Claim C10 (implicit): during dependency resolution, a non-nil value
produced for a field slot by nested dependency resolution whose dynamic
type is not convertible to the field's declared type is silently dropped:
the request value is left unchanged (the field keeps its zero value) and
the loop continues with no error — both when a dot-path selects a nested
value and when the whole dependency result is assigned. -/
theorem inconvertible_dep_value_dropped :
    (∀ (ctx : ReqCtx)
      (resolveF : String → ResolvedDependencies →
        ResolvedDependencies × Except GoErr GoVal)
      (idx : Nat) (dn : String) (fp : List String) (t : GoType)
      (rest : List (Nat × FieldExtractor)) (fields : List GoVal)
      (s s1 : ResolvedDependencies) (dv v : GoVal),
      resolveF dn s = (s1, Except.ok dv) → fp.length > 1 →
      extractNestedField dv (fp.drop 1) = some v → valConvertible v t = false →
      fieldLoop setFieldDep ctx resolveF ((idx, FieldExtractor.dep dn fp t) :: rest) fields s =
        fieldLoop setFieldDep ctx resolveF rest fields s1) ∧
    (∀ (ctx : ReqCtx)
      (resolveF : String → ResolvedDependencies →
        ResolvedDependencies × Except GoErr GoVal)
      (idx : Nat) (dn : String) (fp : List String) (t : GoType)
      (rest : List (Nat × FieldExtractor)) (fields : List GoVal)
      (s s1 : ResolvedDependencies) (dv : GoVal),
      resolveF dn s = (s1, Except.ok dv) → ¬ fp.length > 1 →
      valConvertible dv t = false →
      fieldLoop setFieldDep ctx resolveF ((idx, FieldExtractor.dep dn fp t) :: rest) fields s =
        fieldLoop setFieldDep ctx resolveF rest fields s1) := by
  constructor
  · intro ctx resolveF idx dn fp t rest fields s s1 dv v hres hlen hnest hconv
    rw [List.drop_one] at hnest
    simp [fieldLoop, hres, hlen, hnest, setFieldDep, hconv]
  · intro ctx resolveF idx dn fp t rest fields s s1 dv hres hlen hconv
    simp [fieldLoop, hres, hlen, setFieldDep, hconv]

/-- Witness for C10: the struct-shaped auth result is not convertible to an
integer field, so both the dot-path value "u1" (a string) into an integer
field and the whole struct result into an integer field are dropped while
resolution continues in the same state. -/
theorem inconvertible_dep_value_dropped_witness :
    fieldLoop setFieldDep emptyCtx (fun _ st => (st, Except.ok authResultVal))
        [(0, FieldExtractor.dep "auth" ["auth", "UserID"] (GoType.int 64))]
        [zeroVal (GoType.int 64)] emptyResolved =
      fieldLoop setFieldDep emptyCtx (fun _ st => (st, Except.ok authResultVal))
        [] [zeroVal (GoType.int 64)] emptyResolved ∧
    fieldLoop setFieldDep emptyCtx (fun _ st => (st, Except.ok authResultVal))
        [(0, FieldExtractor.dep "auth" ["auth"] (GoType.int 64))]
        [zeroVal (GoType.int 64)] emptyResolved =
      fieldLoop setFieldDep emptyCtx (fun _ st => (st, Except.ok authResultVal))
        [] [zeroVal (GoType.int 64)] emptyResolved :=
  ⟨inconvertible_dep_value_dropped.1 emptyCtx (fun _ st => (st, Except.ok authResultVal))
      0 "auth" ["auth", "UserID"] (GoType.int 64) [] [zeroVal (GoType.int 64)]
      emptyResolved emptyResolved authResultVal (GoVal.vstr "u1")
      rfl (by decide) (by decide) (by decide),
   inconvertible_dep_value_dropped.2 emptyCtx (fun _ st => (st, Except.ok authResultVal))
      0 "auth" ["auth"] (GoType.int 64) [] [zeroVal (GoType.int 64)]
      emptyResolved emptyResolved authResultVal
      rfl (by decide) (by decide)⟩

/-- Claim C6 counterexample: the extraction error for a missing path
variable and the dependency-not-found error are both plain string errors;
the default error handler maps both to the identical generic 500
INTERNAL_ERROR response, so the extraction error is not surfaced as a
client (4xx) error and the dependency-not-found error is not surfaced
distinctly from it. -/
theorem extraction_vs_depnotfound_surface_counterexample :
    extractE (FieldExtractor.path "id" GoType.string) emptyCtx =
      Except.error (GoErr.errorString "path parameter id not found") ∧
    resolve [] emptyCtx 1 "auth" emptyResolved =
      (emptyResolved, Except.error (GoErr.errorString "dependency auth not found")) ∧
    (defaultErrorHandler (GoErr.errorString "path parameter id not found")).status = 500 ∧
    defaultErrorHandler (GoErr.errorString "path parameter id not found") =
      defaultErrorHandler (GoErr.errorString "dependency auth not found") := by
  refine ⟨by decide, by decide, by decide, by decide⟩

/-- Claim C6 (amended): extraction errors and dependency-not-found errors
are both created as plain string errors and surfaced by the default error
handler through its generic branch as the same 500 INTERNAL_ERROR
response — neither as a client error nor distinguishably from one another
(they differ only in the internal message, which the response omits). -/
theorem plain_error_surface_amended :
    (∀ msg : String, defaultErrorHandler (GoErr.errorString msg) =
      { status := 500, code := "INTERNAL_ERROR",
        message := "An internal error occurred", details := [], fields := [] }) ∧
    (∀ (ctx : ReqCtx) (p : String) (t : GoType), lookupStr ctx.pathVars p = none →
      extractE (FieldExtractor.path p t) ctx =
        Except.error (GoErr.errorString ("path parameter " ++ p ++ " not found"))) ∧
    (∀ (reg : List (String × CompiledDependency)) (ctx : ReqCtx) (fuel : Nat)
      (name : String) (s : ResolvedDependencies),
      lookupStr s.values name = none → lookupStr reg name = none →
      resolve reg ctx (fuel + 1) name s =
        (s, Except.error (GoErr.errorString ("dependency " ++ name ++ " not found")))) := by
  refine ⟨?_, ?_, ?_⟩
  · intro msg
    simp [defaultErrorHandler]
  · intro ctx p t hp
    simp [extractE, hp]
  · intro reg ctx fuel name s hc hr
    simp [resolve, hc, hr]

/-- Witness for the amended C6 at concrete inputs. -/
theorem plain_error_surface_amended_witness :
    defaultErrorHandler (GoErr.errorString "anything") =
      { status := 500, code := "INTERNAL_ERROR",
        message := "An internal error occurred", details := [], fields := [] } ∧
    extractE (FieldExtractor.path "pid" GoType.string) emptyCtx =
      Except.error (GoErr.errorString "path parameter pid not found") ∧
    resolve [] emptyCtx 3 "missing" emptyResolved =
      (emptyResolved, Except.error (GoErr.errorString "dependency missing not found")) :=
  ⟨plain_error_surface_amended.1 "anything",
   plain_error_surface_amended.2.1 emptyCtx "pid" GoType.string (by decide),
   plain_error_surface_amended.2.2 [] emptyCtx 2 "missing" emptyResolved rfl rfl⟩

/-! Order (in)dependence of the binding loop (claim C4).  The Go binder
iterates `ch.extractors`, a Go map whose iteration order is unspecified and
randomized between runs; the model therefore treats the extractor list
itself as the iteration order, and compares runs over permutations of the
same slot map. -/

/-- One successful binder slot of CompiledHandler.Execute as a pure update
of the request value (the extractor's behaviour is fixed by the request
context; an extraction error leaves the value unchanged — the loop aborts
in that case). -/
def execSlot (ctx : ReqCtx) (fields : List GoVal) (i : Nat) (ext : FieldExtractor) :
    List GoVal :=
  match extractE ext ctx with
  | Except.error _ => fields
  | Except.ok v => setFieldExec fields i v ext.fieldType

/-- The binder's field population as a pure fold over the slot list. -/
def bindFold (ctx : ReqCtx) (l : List (Nat × FieldExtractor)) (init : List GoVal) :
    List GoVal :=
  l.foldl (fun fs p => execSlot ctx fs p.1 p.2) init

/-- The slot registered for field index j, if any (first occurrence). -/
def slotOf (j : Nat) : List (Nat × FieldExtractor) → Option FieldExtractor
  | [] => none
  | (i, e) :: rest => if i = j then some e else slotOf j rest

theorem setFieldExec_length (fields : List GoVal) (i : Nat) (v : Option GoVal)
    (t : GoType) : (setFieldExec fields i v t).length = fields.length := by
  cases v with
  | none => rfl
  | some w =>
    by_cases h : valConvertible w t <;> simp [setFieldExec, h]

theorem execSlot_length (ctx : ReqCtx) (fields : List GoVal) (i : Nat)
    (e : FieldExtractor) : (execSlot ctx fields i e).length = fields.length := by
  cases h : extractE e ctx with
  | error e1 => simp [execSlot, h]
  | ok v => simp [execSlot, h, setFieldExec_length]

theorem setFieldExec_getElem_ne (fields : List GoVal) (i j : Nat) (v : Option GoVal)
    (t : GoType) (hne : i ≠ j) :
    (setFieldExec fields i v t)[j]? = fields[j]? := by
  cases v with
  | none => rfl
  | some w =>
    by_cases h : valConvertible w t <;>
      simp [setFieldExec, h, List.getElem?_set_ne hne]

theorem execSlot_getElem_ne (ctx : ReqCtx) (fields : List GoVal) (i j : Nat)
    (e : FieldExtractor) (hne : i ≠ j) :
    (execSlot ctx fields i e)[j]? = fields[j]? := by
  cases h : extractE e ctx with
  | error e1 => simp [execSlot, h]
  | ok v => simp [execSlot, h, setFieldExec_getElem_ne _ _ _ _ _ hne]

theorem setFieldExec_getElem_congr (fields fields2 : List GoVal) (j : Nat)
    (v : Option GoVal) (t : GoType) (hj : fields[j]? = fields2[j]?) :
    (setFieldExec fields j v t)[j]? = (setFieldExec fields2 j v t)[j]? := by
  cases v with
  | none => exact hj
  | some w =>
    by_cases h : valConvertible w t <;>
      simp [setFieldExec, h, List.getElem?_set_self', hj]

theorem execSlot_getElem_congr (ctx : ReqCtx) (fields fields2 : List GoVal) (j : Nat)
    (e : FieldExtractor) (hj : fields[j]? = fields2[j]?) :
    (execSlot ctx fields j e)[j]? = (execSlot ctx fields2 j e)[j]? := by
  cases h : extractE e ctx with
  | error e1 => simp [execSlot, h, hj]
  | ok v => simp [execSlot, h, setFieldExec_getElem_congr _ _ _ _ _ hj]

theorem slotOf_eq_none_iff (j : Nat) :
    ∀ (l : List (Nat × FieldExtractor)), slotOf j l = none ↔ j ∉ l.map Prod.fst := by
  intro l
  induction l with
  | nil => simp [slotOf]
  | cons p rest ih =>
    obtain ⟨i, e⟩ := p
    by_cases h : i = j
    · subst h
      simp [slotOf]
    · simp [slotOf, h, ih, Ne.symm h]

theorem bindFold_getElem_not_mem (ctx : ReqCtx) :
    ∀ (l : List (Nat × FieldExtractor)) (init : List GoVal) (j : Nat),
      j ∉ l.map Prod.fst → (bindFold ctx l init)[j]? = init[j]? := by
  intro l
  induction l with
  | nil => intro init j _; rfl
  | cons p rest ih =>
    intro init j hj
    obtain ⟨i, e⟩ := p
    have hne : i ≠ j := by
      intro h
      exact hj (by simp [h])
    have hrest : j ∉ rest.map Prod.fst := by
      intro h
      exact hj (by simp [h])
    calc (bindFold ctx ((i, e) :: rest) init)[j]?
        = (bindFold ctx rest (execSlot ctx init i e))[j]? := by
          simp [bindFold]
      _ = (execSlot ctx init i e)[j]? := ih _ _ hrest
      _ = init[j]? := execSlot_getElem_ne _ _ _ _ _ hne

theorem bindFold_getElem (ctx : ReqCtx) :
    ∀ (l : List (Nat × FieldExtractor)) (init : List GoVal) (j : Nat),
      (l.map Prod.fst).Nodup →
      (bindFold ctx l init)[j]? =
        (match slotOf j l with
         | some e => (execSlot ctx init j e)[j]?
         | none => init[j]?) := by
  intro l
  induction l with
  | nil => intro init j _; rfl
  | cons p rest ih =>
    intro init j hnd
    obtain ⟨i, e⟩ := p
    have hnd2 : (rest.map Prod.fst).Nodup := (List.nodup_cons.mp hnd).2
    have hni : i ∉ rest.map Prod.fst := (List.nodup_cons.mp hnd).1
    by_cases h : i = j
    · subst h
      calc (bindFold ctx ((i, e) :: rest) init)[i]?
          = (bindFold ctx rest (execSlot ctx init i e))[i]? := by simp [bindFold]
        _ = (execSlot ctx init i e)[i]? := bindFold_getElem_not_mem ctx rest _ i hni
        _ = _ := by simp [slotOf]
    · have hslot : slotOf j ((i, e) :: rest) = slotOf j rest := by simp [slotOf, h]
      rw [hslot]
      have hstep : bindFold ctx ((i, e) :: rest) init =
          bindFold ctx rest (execSlot ctx init i e) := by simp [bindFold]
      rw [hstep, ih (execSlot ctx init i e) j hnd2]
      have hsame : (execSlot ctx init i e)[j]? = init[j]? :=
        execSlot_getElem_ne _ _ _ _ _ h
      cases hs : slotOf j rest with
      | none => simp [hsame]
      | some e2 =>
        simp only []
        exact execSlot_getElem_congr ctx _ _ j e2 hsame

theorem slotOf_some_mem (j : Nat) :
    ∀ (l : List (Nat × FieldExtractor)) (e : FieldExtractor),
      slotOf j l = some e → (j, e) ∈ l := by
  intro l
  induction l with
  | nil => intro e h; simp [slotOf] at h
  | cons p rest ih =>
    intro e h
    obtain ⟨i, e1⟩ := p
    by_cases hij : i = j
    · subst hij
      simp [slotOf] at h
      subst h
      exact List.mem_cons_self _ _
    · simp [slotOf, hij] at h
      exact List.mem_cons_of_mem _ (ih e h)

theorem mem_slotOf (j : Nat) :
    ∀ (l : List (Nat × FieldExtractor)) (e : FieldExtractor),
      (l.map Prod.fst).Nodup → (j, e) ∈ l → slotOf j l = some e := by
  intro l
  induction l with
  | nil => intro e _ h; simp at h
  | cons p rest ih =>
    intro e hnd h
    obtain ⟨i, e1⟩ := p
    have hni : i ∉ rest.map Prod.fst := (List.nodup_cons.mp hnd).1
    have hnd2 : (rest.map Prod.fst).Nodup := (List.nodup_cons.mp hnd).2
    rcases List.mem_cons.mp h with h1 | h1
    · have hi : i = j := (congrArg Prod.fst h1).symm
      have he : e1 = e := by
        have h2 := congrArg Prod.snd h1
        exact h2.symm
      simp [slotOf, hi, he]
    · have hij : i ≠ j := by
        intro hh
        subst hh
        exact hni (List.mem_map.mpr ⟨(i, e), h1, rfl⟩)
      simp [slotOf, hij, ih e hnd2 h1]

theorem slotOf_perm (j : Nat) (l1 l2 : List (Nat × FieldExtractor))
    (hp : List.Perm l1 l2) (hnd : (l1.map Prod.fst).Nodup) :
    slotOf j l1 = slotOf j l2 := by
  have hnd2 : (l2.map Prod.fst).Nodup := ((hp.map Prod.fst).nodup_iff).mp hnd
  cases h : slotOf j l1 with
  | some e =>
    exact (mem_slotOf j l2 e hnd2 (hp.subset (slotOf_some_mem j l1 e h))).symm
  | none =>
    have h1 : j ∉ l1.map Prod.fst := (slotOf_eq_none_iff j l1).mp h
    have h2 : j ∉ l2.map Prod.fst := by
      intro hh
      exact h1 ((hp.map Prod.fst).mem_iff.mpr hh)
    exact ((slotOf_eq_none_iff j l2).mpr h2).symm

theorem bindFold_perm (ctx : ReqCtx) (l1 l2 : List (Nat × FieldExtractor))
    (init : List GoVal) (hp : List.Perm l1 l2)
    (hnd : (l1.map Prod.fst).Nodup) :
    bindFold ctx l1 init = bindFold ctx l2 init := by
  have hnd2 : (l2.map Prod.fst).Nodup := ((hp.map Prod.fst).nodup_iff).mp hnd
  apply List.ext_getElem?
  intro j
  rw [bindFold_getElem ctx l1 init j hnd, bindFold_getElem ctx l2 init j hnd2,
    slotOf_perm j l1 l2 hp hnd]

/-- When no slot is a dependency reference and every extraction succeeds,
the binding loop completes without touching the resolver state and
produces exactly the pure fold of the slots. -/
theorem fieldLoop_nodep_allok (ctx : ReqCtx)
    (resolveF : String → ResolvedDependencies →
      ResolvedDependencies × Except GoErr GoVal) :
    ∀ (l : List (Nat × FieldExtractor)) (fields : List GoVal)
      (s : ResolvedDependencies),
      (∀ p ∈ l, p.2.isDep = false) →
      (∀ p ∈ l, ∃ v, extractE p.2 ctx = Except.ok v) →
      fieldLoop setFieldExec ctx resolveF l fields s =
        (s, Except.ok (bindFold ctx l fields)) := by
  intro l
  induction l with
  | nil => intro fields s _ _; simp [fieldLoop, bindFold]
  | cons p rest ih =>
    intro fields s hnodep hok
    obtain ⟨i, e⟩ := p
    have hd := hnodep (i, e) (List.mem_cons_self _ _)
    obtain ⟨v, hv⟩ := hok (i, e) (List.mem_cons_self _ _)
    have hrest1 : ∀ q ∈ rest, q.2.isDep = false :=
      fun q hq => hnodep q (List.mem_cons_of_mem _ hq)
    have hrest2 : ∀ q ∈ rest, ∃ w, extractE q.2 ctx = Except.ok w :=
      fun q hq => hok q (List.mem_cons_of_mem _ hq)
    cases e with
    | dep dn fp t => simp [FieldExtractor.isDep] at hd
    | path a t =>
      simp only [fieldLoop, hv]
      rw [ih _ _ hrest1 hrest2]
      simp [bindFold, execSlot, hv]
    | query a t =>
      simp only [fieldLoop, hv]
      rw [ih _ _ hrest1 hrest2]
      simp [bindFold, execSlot, hv]
    | header a t =>
      simp only [fieldLoop, hv]
      rw [ih _ _ hrest1 hrest2]
      simp [bindFold, execSlot, hv]

/-- Claim C4 (amended): the binder iterates the slot table in Go map
iteration order, which is not fixed; however, when no slot is a dependency
reference and every extraction succeeds, any two iteration orders of the
same slot table produce identical results (the populated value, the
validation outcome and the response coincide). -/
theorem binder_order_independent_when_successful
    (reg : List (String × CompiledDependency)) (ctx : ReqCtx) (fuel : Nat)
    (l1 l2 : List (Nat × FieldExtractor)) (fts : List GoType)
    (val : List GoVal → Option GoErr) (hf : List GoVal → Except GoErr GoVal)
    (hp : List.Perm l1 l2) (hnd : (l1.map Prod.fst).Nodup)
    (hnodep : ∀ p ∈ l1, p.2.isDep = false)
    (hok : ∀ p ∈ l1, ∃ v, extractE p.2 ctx = Except.ok v) :
    executeRequest reg ctx
        { extractors := l1, reqFieldTypes := fts, validate := val, handlerFunc := hf }
        fuel =
      executeRequest reg ctx
        { extractors := l2, reqFieldTypes := fts, validate := val, handlerFunc := hf }
        fuel := by
  have hnodep2 : ∀ p ∈ l2, p.2.isDep = false :=
    fun p hpm => hnodep p (hp.mem_iff.mpr hpm)
  have hok2 : ∀ p ∈ l2, ∃ v, extractE p.2 ctx = Except.ok v :=
    fun p hpm => hok p (hp.mem_iff.mpr hpm)
  simp only [executeRequest]
  rw [fieldLoop_nodep_allok ctx _ l1 _ _ hnodep hok,
    fieldLoop_nodep_allok ctx _ l2 _ _ hnodep2 hok2,
    bindFold_perm ctx l1 l2 _ hp hnd]

/-- Two-slot plan whose both path variables are absent, in one iteration
order. -/
def planOrderA : CompiledHandler :=
  { extractors := [(0, FieldExtractor.path "a" GoType.string),
                   (1, FieldExtractor.path "b" GoType.string)],
    reqFieldTypes := [GoType.string, GoType.string],
    validate := fun _ => none,
    handlerFunc := fun _ => Except.ok (GoVal.vstr "done") }

/-- The same slot map in the opposite iteration order. -/
def planOrderB : CompiledHandler :=
  { extractors := [(1, FieldExtractor.path "b" GoType.string),
                   (0, FieldExtractor.path "a" GoType.string)],
    reqFieldTypes := [GoType.string, GoType.string],
    validate := fun _ => none,
    handlerFunc := fun _ => Except.ok (GoVal.vstr "done") }

/-- Claim C4 counterexample: the binder iterates a Go map, so the iteration
order over one and the same slot map is not fixed, and two orders can
produce different results: with both path variables absent, one order
surfaces the error for variable a, the other the error for variable b. -/
theorem binder_iteration_order_counterexample :
    List.Perm planOrderA.extractors planOrderB.extractors ∧
    planOrderA.reqFieldTypes = planOrderB.reqFieldTypes ∧
    planOrderA.validate = planOrderB.validate ∧
    planOrderA.handlerFunc = planOrderB.handlerFunc ∧
    executeRequest [] emptyCtx planOrderA 1 ≠ executeRequest [] emptyCtx planOrderB 1 :=
  ⟨by decide, rfl, rfl, rfl, by decide⟩

/-- Witness for the amended C4: two iteration orders over the same two
successfully-extracting query slots produce identical results. -/
theorem binder_order_independent_when_successful_witness :
    executeRequest [] { pathVars := [], query := [("a", "x"), ("b", "y")], headers := [] }
        { extractors := [(0, FieldExtractor.query "a" GoType.string),
                         (1, FieldExtractor.query "b" GoType.string)],
          reqFieldTypes := [GoType.string, GoType.string],
          validate := fun _ => none,
          handlerFunc := fun _ => Except.ok (GoVal.vstruct GoFieldList.fnil) } 1 =
      executeRequest [] { pathVars := [], query := [("a", "x"), ("b", "y")], headers := [] }
        { extractors := [(1, FieldExtractor.query "b" GoType.string),
                         (0, FieldExtractor.query "a" GoType.string)],
          reqFieldTypes := [GoType.string, GoType.string],
          validate := fun _ => none,
          handlerFunc := fun _ => Except.ok (GoVal.vstruct GoFieldList.fnil) } 1 :=
  binder_order_independent_when_successful []
    { pathVars := [], query := [("a", "x"), ("b", "y")], headers := [] } 1
    [(0, FieldExtractor.query "a" GoType.string),
     (1, FieldExtractor.query "b" GoType.string)]
    [(1, FieldExtractor.query "b" GoType.string),
     (0, FieldExtractor.query "a" GoType.string)]
    [GoType.string, GoType.string] (fun _ => none)
    (fun _ => Except.ok (GoVal.vstruct GoFieldList.fnil))
    (by decide) (by decide)
    (by
      intro p hp
      rcases List.mem_cons.mp hp with h | h
      · subst h; rfl
      · rcases List.mem_cons.mp h with h2 | h2
        · subst h2; rfl
        · simp at h2)
    (by
      intro p hp
      rcases List.mem_cons.mp hp with h | h
      · subst h
        exact ⟨some (GoVal.vstr "x"), by decide⟩
      · rcases List.mem_cons.mp h with h2 | h2
        · subst h2
          exact ⟨some (GoVal.vstr "y"), by decide⟩
        · simp at h2)

/-! At-most-once execution per dependency name per request (claim C1) and
unmodified error propagation (claim C2).  The instrumentation log of
ResolvedDependencies counts handler invocations; the proofs track the
invariant that a name is logged exactly once when cached and not at all
otherwise, together with the fact that the in-progress resolution stack is
never cached and forms a chain of static dependency references. -/

/-- Names currently cached in the per-request state. -/
def cacheKeys (s : ResolvedDependencies) : List String := s.values.map Prod.fst

/-- The log/cache invariant: each dependency name has been executed exactly
once if it is cached and not at all otherwise. -/
def InvOnce (s : ResolvedDependencies) : Prop :=
  ∀ n, s.log.count n = if n ∈ cacheKeys s then 1 else 0

/-- The in-progress (entered but not completed) resolutions are never
cached, because Resolve caches a result only on completion. -/
def DisjPending (pending : List String) (s : ResolvedDependencies) : Prop :=
  ∀ p ∈ pending, p ∉ cacheKeys s

/-- Static dependency-graph edge: the compiled dependency registered under
`parent` has a field slot referencing `child`. -/
def RefBy (reg : List (String × CompiledDependency)) (parent child : String) : Prop :=
  ∃ cd, lookupStr reg parent = some cd ∧
    ∃ i fp t, (i, FieldExtractor.dep child fp t) ∈ cd.extractors

/-- The in-progress call stack is a chain of static references: its head
references the current resolution and every further element references the
one before it. -/
def LinkedFrom (reg : List (String × CompiledDependency)) :
    String → List String → Prop
  | _, [] => True
  | child, p :: rest => RefBy reg p child ∧ LinkedFrom reg p rest

theorem lookupStr_none_not_mem {α : Type} (l : List (String × α)) (k : String)
    (h : lookupStr l k = none) : k ∉ l.map Prod.fst := by
  intro hmem
  rcases List.mem_map.mp hmem with ⟨p, hp, hfst⟩
  have hfind : l.find? (fun q => q.fst == k) = none := by
    unfold lookupStr at h
    exact Option.map_eq_none'.mp h
  have := List.find?_eq_none.mp hfind p hp
  apply this
  simp [hfst]

theorem lookupStr_some_mem {α : Type} (l : List (String × α)) (k : String) (v : α) :
    lookupStr l k = some v → k ∈ l.map Prod.fst := by
  induction l with
  | nil => intro h; simp [lookupStr] at h
  | cons q rest ih =>
    intro h
    by_cases hq : q.fst == k
    · have hk : q.fst = k := by simpa using hq
      simp [hk.symm]
    · have h2 : lookupStr rest k = some v := by
        simpa [lookupStr, List.find?_cons, hq] using h
      simp [ih h2]

theorem invOnce_le_one {s : ResolvedDependencies} (h : InvOnce s) (n : String) :
    s.log.count n ≤ 1 := by
  rw [h n]
  split <;> omega

theorem invOnce_empty : InvOnce { values := [], log := [] } := by
  intro n
  simp [cacheKeys]

theorem linked_mem (reg : List (String × CompiledDependency)) :
    ∀ (pending : List String) (child name : String),
      LinkedFrom reg child pending → name ∈ pending →
      ∃ d, RefBy reg name d ∧ (d = child ∨ d ∈ pending) := by
  intro pending
  induction pending with
  | nil => intro child name _ h; simp at h
  | cons p rest ih =>
    intro child name hl hm
    obtain ⟨href, hrest⟩ := hl
    rcases List.mem_cons.mp hm with h | h
    · subst h
      exact ⟨child, href, Or.inl rfl⟩
    · rcases ih p name hrest h with ⟨d, hd, hor⟩
      refine ⟨d, hd, Or.inr ?_⟩
      rcases hor with h1 | h1
      · rw [h1]; exact List.mem_cons_self _ _
      · exact List.mem_cons_of_mem _ h1

/-- Invariant preservation along the field-population loop, for any
assignment semantics and any resolver satisfying it: a successful pass
preserves the log/cache invariant and the pending-disjointness, and shows
that no dependency referenced by the processed slots is still in progress;
a failing pass still leaves every name executed at most once. -/
theorem fieldLoop_once
    (setf : List GoVal → Nat → Option GoVal → GoType → List GoVal)
    (ctx : ReqCtx)
    (resolveF : String → ResolvedDependencies →
      ResolvedDependencies × Except GoErr GoVal)
    (Good : String → Prop) (pending : List String)
    (hres : ∀ (d : String) (s s2 : ResolvedDependencies) (r : Except GoErr GoVal),
      Good d → InvOnce s → DisjPending pending s → resolveF d s = (s2, r) →
      (∀ v, r = Except.ok v → d ∉ pending ∧ InvOnce s2 ∧ DisjPending pending s2) ∧
      (∀ e, r = Except.error e → ∀ n, s2.log.count n ≤ 1)) :
    ∀ (exts : List (Nat × FieldExtractor)) (fields : List GoVal)
      (s s2 : ResolvedDependencies) (r : Except GoErr (List GoVal)),
      (∀ i d fp t, (i, FieldExtractor.dep d fp t) ∈ exts → Good d) →
      InvOnce s → DisjPending pending s →
      fieldLoop setf ctx resolveF exts fields s = (s2, r) →
      (∀ fs, r = Except.ok fs → InvOnce s2 ∧ DisjPending pending s2 ∧
        ∀ i d fp t, (i, FieldExtractor.dep d fp t) ∈ exts → d ∉ pending) ∧
      (∀ e, r = Except.error e → ∀ n, s2.log.count n ≤ 1) := by
  intro exts
  induction exts with
  | nil =>
    intro fields s s2 r _ hinv hdisj heq
    simp only [fieldLoop, Prod.mk.injEq] at heq
    obtain ⟨h1, h2⟩ := heq
    subst h1
    constructor
    · intro fs _
      exact ⟨hinv, hdisj, fun i d fp t hm => by simp at hm⟩
    · intro e he
      rw [← h2] at he
      exact absurd he (by simp)
  | cons p rest ih =>
    intro fields s s2 r hgood hinv hdisj heq
    obtain ⟨idx, ext⟩ := p
    have hgood2 : ∀ i d fp t, (i, FieldExtractor.dep d fp t) ∈ rest → Good d :=
      fun i d fp t hm => hgood i d fp t (List.mem_cons_of_mem _ hm)
    cases ext with
    | dep dn fp t =>
      have hgd : Good dn := hgood idx dn fp t (List.mem_cons_self _ _)
      simp only [fieldLoop] at heq
      cases hr1 : resolveF dn s with
      | mk s1 r1 =>
        rw [hr1] at heq
        cases r1 with
        | error e1 =>
          simp only [Prod.mk.injEq] at heq
          obtain ⟨h1, h2⟩ := heq
          subst h1
          constructor
          · intro fs hok
            rw [← h2] at hok
            exact absurd hok (by simp)
          · intro e _
            exact (hres dn s s1 (Except.error e1) hgd hinv hdisj hr1).2 e1 rfl
        | ok dv =>
          obtain ⟨hnp, hinv1, hdisj1⟩ :=
            (hres dn s s1 (Except.ok dv) hgd hinv hdisj hr1).1 dv rfl
          have hrec := ih _ s1 s2 r hgood2 hinv1 hdisj1 heq
          constructor
          · intro fs hok
            obtain ⟨ha, hb, hc⟩ := hrec.1 fs hok
            refine ⟨ha, hb, fun i d fp2 t2 hm => ?_⟩
            rcases List.mem_cons.mp hm with h | h
            · have hsnd := congrArg Prod.snd h
              simp only [] at hsnd
              cases hsnd
              exact hnp
            · exact hc i d fp2 t2 h
          · exact hrec.2
    | path a t =>
      simp only [fieldLoop] at heq
      cases hx : extractE (FieldExtractor.path a t) ctx with
      | error e1 =>
        rw [hx] at heq
        simp only [Prod.mk.injEq] at heq
        obtain ⟨h1, h2⟩ := heq
        subst h1
        constructor
        · intro fs hok
          rw [← h2] at hok
          exact absurd hok (by simp)
        · intro e _ n
          exact invOnce_le_one hinv n
      | ok v =>
        rw [hx] at heq
        have hrec := ih _ s s2 r hgood2 hinv hdisj heq
        constructor
        · intro fs hok
          obtain ⟨ha, hb, hc⟩ := hrec.1 fs hok
          refine ⟨ha, hb, fun i d fp2 t2 hm => ?_⟩
          rcases List.mem_cons.mp hm with h | h
          · have hsnd := congrArg Prod.snd h
            exact absurd hsnd (by simp)
          · exact hc i d fp2 t2 h
        · exact hrec.2
    | query a t =>
      simp only [fieldLoop] at heq
      cases hx : extractE (FieldExtractor.query a t) ctx with
      | error e1 =>
        rw [hx] at heq
        simp only [Prod.mk.injEq] at heq
        obtain ⟨h1, h2⟩ := heq
        subst h1
        constructor
        · intro fs hok
          rw [← h2] at hok
          exact absurd hok (by simp)
        · intro e _ n
          exact invOnce_le_one hinv n
      | ok v =>
        rw [hx] at heq
        have hrec := ih _ s s2 r hgood2 hinv hdisj heq
        constructor
        · intro fs hok
          obtain ⟨ha, hb, hc⟩ := hrec.1 fs hok
          refine ⟨ha, hb, fun i d fp2 t2 hm => ?_⟩
          rcases List.mem_cons.mp hm with h | h
          · have hsnd := congrArg Prod.snd h
            exact absurd hsnd (by simp)
          · exact hc i d fp2 t2 h
        · exact hrec.2
    | header a t =>
      simp only [fieldLoop] at heq
      cases hx : extractE (FieldExtractor.header a t) ctx with
      | error e1 =>
        rw [hx] at heq
        simp only [Prod.mk.injEq] at heq
        obtain ⟨h1, h2⟩ := heq
        subst h1
        constructor
        · intro fs hok
          rw [← h2] at hok
          exact absurd hok (by simp)
        · intro e _ n
          exact invOnce_le_one hinv n
      | ok v =>
        rw [hx] at heq
        have hrec := ih _ s s2 r hgood2 hinv hdisj heq
        constructor
        · intro fs hok
          obtain ⟨ha, hb, hc⟩ := hrec.1 fs hok
          refine ⟨ha, hb, fun i d fp2 t2 hm => ?_⟩
          rcases List.mem_cons.mp hm with h | h
          · have hsnd := congrArg Prod.snd h
            exact absurd hsnd (by simp)
          · exact hc i d fp2 t2 h
        · exact hrec.2

/-- Invariant preservation of DependencyResolver.Resolve: starting from a
state satisfying the log/cache invariant, with an in-progress stack that is
uncached and chained by static references down to the current name, a
successful resolution shows the current name was not in progress and
preserves the invariants, while a failing one still leaves every
dependency handler executed at most once. -/
theorem resolve_once (reg : List (String × CompiledDependency)) (ctx : ReqCtx) :
    ∀ (fuel : Nat) (name : String) (s : ResolvedDependencies)
      (pending : List String) (s2 : ResolvedDependencies) (r : Except GoErr GoVal),
      InvOnce s → DisjPending pending s → LinkedFrom reg name pending →
      resolve reg ctx fuel name s = (s2, r) →
      (∀ v, r = Except.ok v → name ∉ pending ∧ InvOnce s2 ∧ DisjPending pending s2) ∧
      (∀ e, r = Except.error e → ∀ n, s2.log.count n ≤ 1) := by
  intro fuel
  induction fuel with
  | zero =>
    intro name s pending s2 r hinv hdisj _ heq
    simp only [resolve, Prod.mk.injEq] at heq
    obtain ⟨h1, h2⟩ := heq
    subst h1
    constructor
    · intro v hv
      rw [← h2] at hv
      exact absurd hv (by simp)
    · intro e _ n
      exact invOnce_le_one hinv n
  | succ f ihf =>
    intro name s pending s2 r hinv hdisj hlink heq
    simp only [resolve] at heq
    cases hc : lookupStr s.values name with
    | some v0 =>
      rw [hc] at heq
      simp only [Prod.mk.injEq] at heq
      obtain ⟨h1, h2⟩ := heq
      subst h1
      constructor
      · intro v _
        refine ⟨fun hmem => ?_, hinv, hdisj⟩
        exact hdisj name hmem (lookupStr_some_mem s.values name v0 hc)
      · intro e he
        rw [← h2] at he
        exact absurd he (by simp)
    | none =>
      rw [hc] at heq
      cases hreg : lookupStr reg name with
      | none =>
        rw [hreg] at heq
        simp only [Prod.mk.injEq] at heq
        obtain ⟨h1, h2⟩ := heq
        subst h1
        constructor
        · intro v hv
          rw [← h2] at hv
          exact absurd hv (by simp)
        · intro e _ n
          exact invOnce_le_one hinv n
      | some dep =>
        rw [hreg] at heq
        dsimp only [] at heq
        have hnc : name ∉ cacheKeys s := lookupStr_none_not_mem s.values name hc
        have hdisj2 : DisjPending (name :: pending) s := by
          intro p hp
          rcases List.mem_cons.mp hp with h | h
          · rw [h]; exact hnc
          · exact hdisj p h
        have hresF : ∀ (d : String) (t t2 : ResolvedDependencies)
            (r2 : Except GoErr GoVal),
            RefBy reg name d → InvOnce t → DisjPending (name :: pending) t →
            (fun n st => resolve reg ctx f n st) d t = (t2, r2) →
            (∀ v, r2 = Except.ok v →
              d ∉ name :: pending ∧ InvOnce t2 ∧ DisjPending (name :: pending) t2) ∧
            (∀ e, r2 = Except.error e → ∀ n, t2.log.count n ≤ 1) := by
          intro d t t2 r2 hGd hInv hDisj heq2
          exact ihf d t (name :: pending) t2 r2 hInv hDisj ⟨hGd, hlink⟩ heq2
        cases hloop : fieldLoop setFieldDep ctx (fun n st => resolve reg ctx f n st)
            dep.extractors (zeroFields dep.reqFieldTypes) s with
        | mk s1 r1 =>
          rw [hloop] at heq
          have hgood : ∀ i d fp t2,
              (i, FieldExtractor.dep d fp t2) ∈ dep.extractors → RefBy reg name d :=
            fun i d fp t2 hm => ⟨dep, hreg, i, fp, t2, hm⟩
          have hmain := fieldLoop_once setFieldDep ctx
            (fun n st => resolve reg ctx f n st) (RefBy reg name) (name :: pending)
            hresF dep.extractors (zeroFields dep.reqFieldTypes) s s1 r1
            hgood hinv hdisj2 hloop
          cases r1 with
          | error e1 =>
            simp only [Prod.mk.injEq] at heq
            obtain ⟨h1, h2⟩ := heq
            subst h1
            constructor
            · intro v hv
              rw [← h2] at hv
              exact absurd hv (by simp)
            · intro e _
              exact hmain.2 e1 rfl
          | ok fields =>
            obtain ⟨hinv1, hdisj21, hrefs⟩ := hmain.1 fields rfl
            dsimp only [] at heq
            have hnp : name ∉ pending := by
              intro hmem
              rcases linked_mem reg pending name name hlink hmem with ⟨d, hRef, hor⟩
              obtain ⟨cd, hcd, i, fp, t2, hm⟩ := hRef
              rw [hreg] at hcd
              have hde : dep = cd := Option.some.inj hcd
              subst hde
              have hdnp : d ∉ name :: pending := hrefs i d fp t2 hm
              apply hdnp
              rcases hor with h | h
              · rw [h]; exact List.mem_cons_self _ _
              · exact List.mem_cons_of_mem _ h
            have hnc1 : name ∉ cacheKeys s1 := hdisj21 name (List.mem_cons_self _ _)
            cases hval : dep.validate fields with
            | some e1 =>
              rw [hval] at heq
              simp only [Prod.mk.injEq] at heq
              obtain ⟨h1, h2⟩ := heq
              subst h1
              constructor
              · intro v hv
                rw [← h2] at hv
                exact absurd hv (by simp)
              · intro e _ n
                exact invOnce_le_one hinv1 n
            | none =>
              rw [hval] at heq
              dsimp only [] at heq
              cases hh : dep.handlerFunc fields with
              | error e1 =>
                rw [hh] at heq
                simp only [Prod.mk.injEq] at heq
                obtain ⟨h1, h2⟩ := heq
                subst h1
                constructor
                · intro v hv
                  rw [← h2] at hv
                  exact absurd hv (by simp)
                · intro e _ n
                  simp only [List.count_append]
                  by_cases hn : n = name
                  · subst hn
                    have h0 : s1.log.count n = 0 := by
                      rw [hinv1 n, if_neg hnc1]
                    simp [h0, List.count_cons]
                  · have hle := invOnce_le_one hinv1 n
                    have h0 : List.count n [name] = 0 := by
                      simp [List.count_cons, hn]
                    omega
              | ok result =>
                rw [hh] at heq
                simp only [Prod.mk.injEq] at heq
                obtain ⟨h1, h2⟩ := heq
                subst h1
                constructor
                · intro v _
                  refine ⟨hnp, ?_, ?_⟩
                  · intro n
                    have hkeys : cacheKeys
                        { values := (name, result) :: s1.values, log := s1.log ++ [name] } =
                        name :: cacheKeys s1 := by
                      simp [cacheKeys]
                    simp only [List.count_append, hkeys]
                    by_cases hn : n = name
                    · subst hn
                      have h0 : s1.log.count n = 0 := by
                        rw [hinv1 n, if_neg hnc1]
                      simp [h0, List.count_cons]
                    · have h0 : List.count n [name] = 0 := by
                        simp [List.count_cons, hn]
                      rw [hinv1 n, h0]
                      by_cases hm : n ∈ cacheKeys s1
                      · simp [hm, List.mem_cons]
                      · simp [hm, hn, List.mem_cons]
                  · intro q hq
                    have hq1 : q ∉ cacheKeys s1 :=
                      hdisj21 q (List.mem_cons_of_mem _ hq)
                    have hq2 : q ≠ name := by
                      intro hh2
                      rw [hh2] at hq
                      exact hnp hq
                    simp [cacheKeys, List.mem_cons]
                    constructor
                    · exact hq2
                    · simpa [cacheKeys] using hq1
                · intro e he
                  rw [← h2] at he
                  exact absurd he (by simp)

/-- Claim C1: for every inbound request, each dependency handler executes at
most once per dependency name, even when the name is referenced by several
fields or transitively through nested dependencies (the instrumentation log
records one entry per handler invocation); and once a name is cached in the
per-request ResolvedDependencies, a later resolution of the same name
returns the cached value with no state change and no re-execution. -/
theorem dependency_handler_at_most_once :
    (∀ (reg : List (String × CompiledDependency)) (ctx : ReqCtx)
      (plan : CompiledHandler) (fuel : Nat) (n : String),
      ((executeRequest reg ctx plan fuel).1).log.count n ≤ 1) ∧
    (∀ (reg : List (String × CompiledDependency)) (ctx : ReqCtx) (fuel : Nat)
      (name : String) (s : ResolvedDependencies) (v : GoVal),
      lookupStr s.values name = some v →
      resolve reg ctx (fuel + 1) name s = (s, Except.ok v)) := by
  constructor
  · intro reg ctx plan fuel n
    have hresF : ∀ (d : String) (t t2 : ResolvedDependencies)
        (r2 : Except GoErr GoVal),
        True → InvOnce t → DisjPending [] t →
        (fun n2 st => resolve reg ctx fuel n2 st) d t = (t2, r2) →
        (∀ v, r2 = Except.ok v →
          d ∉ ([] : List String) ∧ InvOnce t2 ∧ DisjPending [] t2) ∧
        (∀ e, r2 = Except.error e → ∀ m, t2.log.count m ≤ 1) := by
      intro d t t2 r2 _ hInv hDisj heq2
      exact resolve_once reg ctx fuel d t [] t2 r2 hInv hDisj trivial heq2
    cases hloop : fieldLoop setFieldExec ctx (fun n2 st => resolve reg ctx fuel n2 st)
        plan.extractors (zeroFields plan.reqFieldTypes) { values := [], log := [] } with
    | mk s1 r1 =>
      have hmain := fieldLoop_once setFieldExec ctx
        (fun n2 st => resolve reg ctx fuel n2 st) (fun _ => True) [] hresF
        plan.extractors (zeroFields plan.reqFieldTypes)
        { values := [], log := [] } s1 r1 (fun _ _ _ _ _ => trivial)
        invOnce_empty (fun p hp => absurd hp (List.not_mem_nil p)) hloop
      have hstate : (executeRequest reg ctx plan fuel).1 = s1 := by
        simp only [executeRequest]
        rw [hloop]
        cases r1 with
        | error e1 => rfl
        | ok fields =>
          dsimp only []
          cases plan.validate fields with
          | some e1 => rfl
          | none =>
            cases plan.handlerFunc fields with
            | error e1 => rfl
            | ok resp => rfl
      rw [hstate]
      cases r1 with
      | error e1 => exact hmain.2 e1 rfl n
      | ok fields =>
        obtain ⟨hinv1, _, _⟩ := hmain.1 fields rfl
        exact invOnce_le_one hinv1 n
  · intro reg ctx fuel name s v h
    simp [resolve, h]

/-- A header-sourced dependency (the stub A of the spec's call-counting
scenario). -/
def depAW : CompiledDependency :=
  { extractors := [(0, FieldExtractor.header "X-Token" GoType.string)],
    reqFieldTypes := [GoType.string],
    validate := fun _ => none,
    handlerFunc := fun _ => Except.ok authResultVal }

/-- A dependency B whose request type references dependency A. -/
def depBW : CompiledDependency :=
  { extractors := [(0, FieldExtractor.dep "A" ["A", "UserID"] GoType.string)],
    reqFieldTypes := [GoType.string],
    validate := fun _ => none,
    handlerFunc := fun _ => Except.ok (GoVal.vstr "B-result") }

/-- Registry with A and B registered. -/
def regW : List (String × CompiledDependency) := [("A", depAW), ("B", depBW)]

/-- A plan whose field X references A directly and whose field Y references
B, which references A transitively. -/
def planW : CompiledHandler :=
  { extractors := [(0, FieldExtractor.dep "A" ["A", "UserID"] GoType.string),
                   (1, FieldExtractor.dep "B" ["B"] GoType.string)],
    reqFieldTypes := [GoType.string, GoType.string],
    validate := fun _ => none,
    handlerFunc := fun _ => Except.ok (GoVal.vstr "resp") }

/-- Request context for the witness scenario. -/
def ctxW : ReqCtx := { pathVars := [], query := [], headers := [("X-Token", "tok")] }

/-- Witness for C1: in the spec's scenario — A referenced by field X
directly and by field Y transitively through B — the invocation log after
the request is exactly one entry per dependency, the at-most-once bound
holds for both names, and a resolution of an already-cached name returns
the cached value with the state unchanged. -/
theorem dependency_handler_at_most_once_witness :
    ((executeRequest regW ctxW planW 5).1).log = ["A", "B"] ∧
    ((executeRequest regW ctxW planW 5).1).log.count "A" ≤ 1 ∧
    ((executeRequest regW ctxW planW 5).1).log.count "B" ≤ 1 ∧
    resolve regW ctxW 3 "A" { values := [("A", GoVal.vstr "cached")], log := ["A"] } =
      ({ values := [("A", GoVal.vstr "cached")], log := ["A"] },
        Except.ok (GoVal.vstr "cached")) :=
  ⟨by decide,
   dependency_handler_at_most_once.1 regW ctxW planW 5 "A",
   dependency_handler_at_most_once.1 regW ctxW planW 5 "B",
   dependency_handler_at_most_once.2 regW ctxW 2 "A"
     { values := [("A", GoVal.vstr "cached")], log := ["A"] } (GoVal.vstr "cached") rfl⟩

/-- The possible origins of an error escaping dependency resolution: it is,
verbatim, an extractor's error on this request, the fixed not-found error
for an unregistered name, a validation result of some registered
dependency, a business error returned by some registered dependency's
handler, or the model's stack-exhaustion marker.  An error matching one of
these origins is exactly the value produced there — not wrapped in a
DependencyError and not replaced by a generic error. -/
def ErrOrigin (reg : List (String × CompiledDependency)) (ctx : ReqCtx)
    (e : GoErr) : Prop :=
  (∃ ext, extractE ext ctx = Except.error e) ∨
  (∃ n, lookupStr reg n = none ∧
    e = GoErr.errorString ("dependency " ++ n ++ " not found")) ∨
  (∃ n cd args, lookupStr reg n = some cd ∧ cd.validate args = some e) ∨
  (∃ n cd args, lookupStr reg n = some cd ∧ cd.handlerFunc args = Except.error e) ∨
  e = stackErr

/-- An error escaping the field-population loop originates, verbatim, from
an extractor or from the resolver. -/
theorem fieldLoop_origin
    (setf : List GoVal → Nat → Option GoVal → GoType → List GoVal)
    (ctx : ReqCtx)
    (resolveF : String → ResolvedDependencies →
      ResolvedDependencies × Except GoErr GoVal)
    (reg : List (String × CompiledDependency))
    (hres : ∀ (d : String) (s s2 : ResolvedDependencies) (e : GoErr),
      resolveF d s = (s2, Except.error e) → ErrOrigin reg ctx e) :
    ∀ (exts : List (Nat × FieldExtractor)) (fields : List GoVal)
      (s s2 : ResolvedDependencies) (e : GoErr),
      fieldLoop setf ctx resolveF exts fields s = (s2, Except.error e) →
      ErrOrigin reg ctx e := by
  intro exts
  induction exts with
  | nil =>
    intro fields s s2 e heq
    simp [fieldLoop] at heq
  | cons p rest ih =>
    intro fields s s2 e heq
    obtain ⟨idx, ext⟩ := p
    cases ext with
    | dep dn fp t =>
      simp only [fieldLoop] at heq
      cases hr1 : resolveF dn s with
      | mk s1 r1 =>
        rw [hr1] at heq
        cases r1 with
        | error e1 =>
          simp only [Prod.mk.injEq] at heq
          obtain ⟨h1, h2⟩ := heq
          injection h2 with h3
          subst h3
          exact hres dn s s1 e1 hr1
        | ok dv =>
          exact ih _ s1 s2 e heq
    | path a t =>
      simp only [fieldLoop] at heq
      cases hx : extractE (FieldExtractor.path a t) ctx with
      | error e1 =>
        rw [hx] at heq
        simp only [Prod.mk.injEq] at heq
        obtain ⟨h1, h2⟩ := heq
        injection h2 with h3
        subst h3
        exact Or.inl ⟨FieldExtractor.path a t, hx⟩
      | ok v =>
        rw [hx] at heq
        exact ih _ s s2 e heq
    | query a t =>
      simp only [fieldLoop] at heq
      cases hx : extractE (FieldExtractor.query a t) ctx with
      | error e1 =>
        rw [hx] at heq
        simp only [Prod.mk.injEq] at heq
        obtain ⟨h1, h2⟩ := heq
        injection h2 with h3
        subst h3
        exact Or.inl ⟨FieldExtractor.query a t, hx⟩
      | ok v =>
        rw [hx] at heq
        exact ih _ s s2 e heq
    | header a t =>
      simp only [fieldLoop] at heq
      cases hx : extractE (FieldExtractor.header a t) ctx with
      | error e1 =>
        rw [hx] at heq
        simp only [Prod.mk.injEq] at heq
        obtain ⟨h1, h2⟩ := heq
        injection h2 with h3
        subst h3
        exact Or.inl ⟨FieldExtractor.header a t, hx⟩
      | ok v =>
        rw [hx] at heq
        exact ih _ s s2 e heq

/-- An error escaping Resolve originates, verbatim, from one of the leaf
error sites: it is never wrapped or replaced on the way up the dependency
recursion. -/
theorem resolve_origin (reg : List (String × CompiledDependency)) (ctx : ReqCtx) :
    ∀ (fuel : Nat) (name : String) (s s2 : ResolvedDependencies) (e : GoErr),
      resolve reg ctx fuel name s = (s2, Except.error e) → ErrOrigin reg ctx e := by
  intro fuel
  induction fuel with
  | zero =>
    intro name s s2 e heq
    simp only [resolve, Prod.mk.injEq] at heq
    obtain ⟨h1, h2⟩ := heq
    injection h2 with h3
    subst h3
    exact Or.inr (Or.inr (Or.inr (Or.inr rfl)))
  | succ f ihf =>
    intro name s s2 e heq
    simp only [resolve] at heq
    cases hc : lookupStr s.values name with
    | some v0 =>
      rw [hc] at heq
      simp at heq
    | none =>
      rw [hc] at heq
      cases hreg : lookupStr reg name with
      | none =>
        rw [hreg] at heq
        dsimp only [] at heq
        simp only [Prod.mk.injEq] at heq
        obtain ⟨h1, h2⟩ := heq
        injection h2 with h3
        subst h3
        exact Or.inr (Or.inl ⟨name, hreg, rfl⟩)
      | some dep =>
        rw [hreg] at heq
        dsimp only [] at heq
        cases hloop : fieldLoop setFieldDep ctx (fun n st => resolve reg ctx f n st)
            dep.extractors (zeroFields dep.reqFieldTypes) s with
        | mk s1 r1 =>
          rw [hloop] at heq
          cases r1 with
          | error e1 =>
            simp only [Prod.mk.injEq] at heq
            obtain ⟨h1, h2⟩ := heq
            injection h2 with h3
            subst h3
            exact fieldLoop_origin setFieldDep ctx
              (fun n st => resolve reg ctx f n st) reg
              (fun d t t2 e2 heq2 => ihf d t t2 e2 heq2)
              dep.extractors (zeroFields dep.reqFieldTypes) s s1 e1 hloop
          | ok fields =>
            dsimp only [] at heq
            cases hval : dep.validate fields with
            | some e1 =>
              rw [hval] at heq
              simp only [Prod.mk.injEq] at heq
              obtain ⟨h1, h2⟩ := heq
              injection h2 with h3
              subst h3
              exact Or.inr (Or.inr (Or.inl ⟨name, dep, fields, hreg, hval⟩))
            | none =>
              rw [hval] at heq
              dsimp only [] at heq
              cases hh : dep.handlerFunc fields with
              | error e1 =>
                rw [hh] at heq
                simp only [Prod.mk.injEq] at heq
                obtain ⟨h1, h2⟩ := heq
                injection h2 with h3
                subst h3
                exact Or.inr (Or.inr (Or.inr (Or.inl ⟨name, dep, fields, hreg, hh⟩)))
              | ok result =>
                rw [hh] at heq
                simp at heq

/-- Claim C2: an error escaping the whole request execution — in
particular a validation failure or a business error raised at any depth of
transitive dependency resolution — reaches the top-level error handler as
exactly the value produced at its origin (an extractor, the not-found
construction, a dependency's validator or handler, the plan's own
validator or handler, or the stack-exhaustion marker); it is neither
wrapped nor replaced by a generic error on the way up, so a validation
error keeps its field-violation structure and a business error its
status/code/message. -/
theorem deep_error_reaches_top_unmodified :
    ∀ (reg : List (String × CompiledDependency)) (ctx : ReqCtx)
      (plan : CompiledHandler) (fuel : Nat) (s2 : ResolvedDependencies) (e : GoErr),
      executeRequest reg ctx plan fuel = (s2, Except.error e) →
      ErrOrigin reg ctx e ∨ (∃ args, plan.validate args = some e) ∨
        (∃ args, plan.handlerFunc args = Except.error e) := by
  intro reg ctx plan fuel s2 e heq
  simp only [executeRequest] at heq
  cases hloop : fieldLoop setFieldExec ctx (fun n st => resolve reg ctx fuel n st)
      plan.extractors (zeroFields plan.reqFieldTypes) { values := [], log := [] } with
  | mk s1 r1 =>
    rw [hloop] at heq
    cases r1 with
    | error e1 =>
      simp only [Prod.mk.injEq] at heq
      obtain ⟨h1, h2⟩ := heq
      injection h2 with h3
      subst h3
      exact Or.inl (fieldLoop_origin setFieldExec ctx
        (fun n st => resolve reg ctx fuel n st) reg
        (fun d t t2 e2 heq2 => resolve_origin reg ctx fuel d t t2 e2 heq2)
        plan.extractors (zeroFields plan.reqFieldTypes) _ s1 e1 hloop)
    | ok fields =>
      dsimp only [] at heq
      cases hval : plan.validate fields with
      | some e1 =>
        rw [hval] at heq
        simp only [Prod.mk.injEq] at heq
        obtain ⟨h1, h2⟩ := heq
        injection h2 with h3
        subst h3
        exact Or.inr (Or.inl ⟨fields, hval⟩)
      | none =>
        rw [hval] at heq
        dsimp only [] at heq
        cases hh : plan.handlerFunc fields with
        | error e1 =>
          rw [hh] at heq
          simp only [Prod.mk.injEq] at heq
          obtain ⟨h1, h2⟩ := heq
          injection h2 with h3
          subst h3
          exact Or.inr (Or.inr ⟨fields, hh⟩)
        | ok resp =>
          rw [hh] at heq
          simp at heq

/-- The structured validation failure of the C2 witness scenario. -/
def vErrW : GoErr := NewValidationError [("Token", ["failed required validation"])]

/-- A dependency whose validation always fails with the structured
field-violation error. -/
def depBadW : CompiledDependency :=
  { extractors := [],
    reqFieldTypes := [],
    validate := fun _ => some vErrW,
    handlerFunc := fun _ => Except.ok (GoVal.vstr "never") }

/-- A dependency in the middle of the chain, referencing the failing one. -/
def depMidW : CompiledDependency :=
  { extractors := [(0, FieldExtractor.dep "bad" ["bad"] GoType.string)],
    reqFieldTypes := [GoType.string],
    validate := fun _ => none,
    handlerFunc := fun _ => Except.ok (GoVal.vstr "mid") }

/-- Registry for the two-level failing chain. -/
def regW2 : List (String × CompiledDependency) := [("bad", depBadW), ("mid", depMidW)]

/-- Plan referencing the middle dependency, so the validation failure
arises two levels deep. -/
def planW2 : CompiledHandler :=
  { extractors := [(0, FieldExtractor.dep "mid" ["mid"] GoType.string)],
    reqFieldTypes := [GoType.string],
    validate := fun _ => none,
    handlerFunc := fun _ => Except.ok (GoVal.vstr "resp") }

/-- Witness for C2: a validation failure produced two dependency levels
deep surfaces at the top level as exactly the structured validation error,
with its per-field violation list intact, and the origin disjunction holds
for it. -/
theorem deep_error_reaches_top_unmodified_witness :
    executeRequest regW2 ctxW planW2 5 = (emptyResolved, Except.error vErrW) ∧
    (ErrOrigin regW2 ctxW vErrW ∨ (∃ args, planW2.validate args = some vErrW) ∨
      (∃ args, planW2.handlerFunc args = Except.error vErrW)) :=
  ⟨by decide,
   deep_error_reaches_top_unmodified regW2 ctxW planW2 5 emptyResolved vErrW (by decide)⟩
